import Mathlib

/-!
Verification of the mini_firestore client (src/src/mini_firestore.cpp and its
header) against its natural-language specification.

The generic structured-value library (nlohmann::json) is modelled by the
inductive type `J` below: a tagged union of null / bool / number / string /
array / object.  Objects are modelled as association lists of (key, value)
pairs; the C++ library keeps objects as key-sorted maps, but every statement
proved here goes through key lookup, so the association-list model agrees
with it on all the observations made.  JSON numbers are carried as integers:
no code path modelled here performs numeric computation on a stored number,
numbers only pass through the codec unchanged, so the carrier type is
irrelevant to the statements proved.

Fallible C++ operations (a thrown nlohmann exception such as
`get<std::string>` on a non-string, `items()` iteration over a scalar, a
`const operator[]` access to a missing key, or a failed `assert`) are
modelled by `Option`: `none` means the C++ code raises / aborts instead of
returning a value.
-/

inductive J where
  | null : J
  | b : Bool → J
  | num : Int → J
  | str : String → J
  | arr : List J → J
  | obj : List (String × J) → J

mutual
/-- Executable size of a `J` value, used as fuel for the decoder model
(the automatically derived `sizeOf` of a nested inductive has no executable
code, and the decoder must stay computable). -/
def jSize : J → Nat
  | J.null => 1
  | J.b _ => 1
  | J.num _ => 1
  | J.str _ => 1
  | J.arr xs => jSizeList xs + 1
  | J.obj l => jSizeFields l + 1

def jSizeList : List J → Nat
  | [] => 1
  | x :: xs => jSize x + jSizeList xs + 1

def jSizeFields : List (String × J) → Nat
  | [] => 1
  | (_, v) :: l => jSize v + jSizeFields l + 2
end

/-- Association-list lookup: models `json::contains` + `json::operator[]`
for object keys (first match wins; real nlohmann objects have unique keys). -/
def findVal : List (String × J) → String → Option J
  | [], _ => none
  | (k, v) :: rest, key => if k = key then some v else findVal rest key

/-- Models `j.contains(key)`: false on any non-object value. -/
def containsKey (j : J) (key : String) : Bool :=
  match j with
  | J.obj l => (findVal l key).isSome
  | _ => false

/-- Models `j[key]` lookup on an object (`J.null` when used to model the
defaulted access of a non-const `operator[]`). -/
def jLookup (j : J) (key : String) : Option J :=
  match j with
  | J.obj l => findVal l key
  | _ => none

/-- Models `isTimeISO8601` from mini_firestore.cpp: length at least 20 and
fixed separator characters at positions 4, 7, 10, 13, 16 plus a final 'Z'.
(The digits themselves are not checked, exactly as in the source.) -/
def isTimeISO8601 (s : String) : Bool :=
  if s.length ≥ 20 then
    (s.data.getD 4 (Char.ofNat 0) = '-') && (s.data.getD 7 (Char.ofNat 0) = '-')
      && (s.data.getD 10 (Char.ofNat 0) = 'T') && (s.data.getD 13 (Char.ofNat 0) = ':')
      && (s.data.getD 16 (Char.ofNat 0) = ':')
      && ((s.data.getLast?).getD (Char.ofNat 0) = 'Z')
  else
    false

/-- The spec's description of the Zulu pattern: length ≥ 20, `-` at 4 and 7,
`T` at 10, `:` at 13 and 16, and the string ends in `Z`. Stated from the
spec's words, to be compared with the source's `isTimeISO8601`. -/
def specZuluPattern (s : String) : Bool :=
  (20 ≤ s.length) && (s.data.getD 4 (Char.ofNat 0) = '-') && (s.data.getD 7 (Char.ofNat 0) = '-')
    && (s.data.getD 10 (Char.ofNat 0) = 'T') && (s.data.getD 13 (Char.ofNat 0) = ':')
    && (s.data.getD 16 (Char.ofNat 0) = ':') && ((s.data.getLast?).getD (Char.ofNat 0) = 'Z')

mutual
/-- Models `asValue` from mini_firestore.cpp.  The `mapValue` branch of the
source calls `asDocument(inValue)`; that call is inlined here (`asDocument`
of an object is `{"fields": {...}}` with every field encoded), see
`asDocument` below, so that the recursion is visibly decreasing. -/
def asValue : J → J
  | J.str s =>
    if isTimeISO8601 s then J.obj [("timestampValue", J.str s)]
    else J.obj [("stringValue", J.str s)]
  | J.b v => J.obj [("booleanValue", J.b v)]
  | J.arr xs => J.obj [("arrayValue", J.obj [("values", J.arr (asValueList xs))])]
  | J.obj l => J.obj [("mapValue", J.obj [("fields", J.obj (asValueFields l))])]
  | J.num n => J.obj [("doubleValue", J.num n)]
  | J.null => J.obj [("nullValue", J.null)]

/-- Models the loop body of `asValue` over an array. -/
def asValueList : List J → List J
  | [] => []
  | x :: xs => asValue x :: asValueList xs

/-- Models the loop of `asDocument` over the items of an object. -/
def asValueFields : List (String × J) → List (String × J)
  | [] => []
  | (k, v) :: l => (k, asValue v) :: asValueFields l
end

/-- Models `asDocument` from mini_firestore.cpp: wraps the encoded fields in
`{"fields": {...}}`.  The source iterates `inDoc.items()`; every call site
passes an object (a user document or, inside `asValue`, a nested map), and
for a null json the loop body never runs, so non-object inputs are given the
empty-fields envelope here. -/
def asDocument : J → J
  | J.obj l => J.obj [("fields", J.obj (asValueFields l))]
  | _ => J.obj [("fields", J.obj [])]

/-- Index keys produced by nlohmann `items()` when iterating an array: the
element index rendered in decimal. -/
def withIndexKeys (ds : List J) : List (String × J) :=
  (List.enum ds).map (fun p => (Nat.repr p.1, p.2))

/-- Whitespace set of C `isspace`, used by the `atoi` model. -/
def atoiSpace (c : Char) : Bool :=
  c = ' ' || c = '\t' || c = '\n' || c = Char.ofNat 11 || c = Char.ofNat 12 || c = '\r'

def atoiDigits : List Char → Nat → Nat
  | [], acc => acc
  | c :: cs, acc => if c.isDigit then atoiDigits cs (acc * 10 + (c.toNat - 48)) else acc

/-- Models C `atoi` as used by the `integerValue` branch of `fromValue`:
skip leading whitespace, optional sign, then leading decimal digits
(0 if there are none). -/
def atoiC (s : String) : Int :=
  match s.data.dropWhile atoiSpace with
  | '-' :: rest => -(Int.ofNat (atoiDigits rest 0))
  | '+' :: rest => Int.ofNat (atoiDigits rest 0)
  | rest => Int.ofNat (atoiDigits rest 0)

mutual
/-- Fuelled model of `fromValue` from mini_firestore.cpp.  The recursion of
the source goes through key lookups, so it is not structural; the `Nat`
fuel makes it structural, and the wrapper `fromValue` below supplies
`sizeOf j` fuel, which every recursive call strictly decreases, so the
fuel-exhaustion `none` is unreachable.  A `none` result models a thrown
nlohmann exception: `get<std::string>` on a non-string `integerValue`
payload, or a `fromFields` on a `mapValue` payload that is not an object
containing `fields`. -/
def fromValueF : Nat → J → Option J
  | 0, _ => none
  | fuel + 1, J.obj l =>
    match findVal l "fields" with
    | some f => decodeDocPayloadF fuel f
    | none =>
      match findVal l "mapValue" with
      | some (J.obj lm) =>
        (match findVal lm "fields" with
         | some f => decodeDocPayloadF fuel f
         | none => none)
      | some _ => none
      | none =>
        match findVal l "stringValue" with
        | some sv => some sv
        | none =>
          match findVal l "booleanValue" with
          | some bv => some bv
          | none =>
            match findVal l "timestampValue" with
            | some tv => some tv
            | none =>
              match findVal l "arrayValue" with
              | some (J.obj la) =>
                (match findVal la "values" with
                 | some (J.arr ys) => (decodeListF fuel ys).map J.arr
                 | some (J.obj lo) => (decodeValsF fuel lo).map J.arr
                 | some J.null => some (J.arr [])
                 | some c => (fromValueF fuel c).map (fun d => J.arr [d])
                 | none => some (J.arr []))
              | some _ => some (J.arr [])
              | none =>
                match findVal l "doubleValue" with
                | some dv => some dv
                | none =>
                  match findVal l "integerValue" with
                  | some (J.str s) => some (J.num (atoiC s))
                  | some _ => none
                  | none => some J.null
  | _ + 1, _ => some J.null

/-- Fuelled model of the loop of `fromFields` over the payload found under
the `fields` key: an object decodes each entry, a null decodes to an empty
object (the loop body never runs), an array is iterated by `items()` with
decimal index keys, and a scalar makes `items()::key()` throw. -/
def decodeDocPayloadF : Nat → J → Option J
  | 0, _ => none
  | fuel + 1, J.obj lf => (decodeFieldsListF fuel lf).map J.obj
  | _ + 1, J.null => some (J.obj [])
  | fuel + 1, J.arr xs => (decodeListF fuel xs).map (fun ds => J.obj (withIndexKeys ds))
  | _ + 1, _ => none

/-- Fuelled per-entry loop of `fromFields`. -/
def decodeFieldsListF : Nat → List (String × J) → Option (List (String × J))
  | 0, _ => none
  | _ + 1, [] => some []
  | fuel + 1, (k, v) :: rest => do
    let d ← fromValueF fuel v
    let ds ← decodeFieldsListF fuel rest
    some ((k, d) :: ds)

/-- Fuelled per-element loop of the `arrayValue` branch of `fromValue`. -/
def decodeListF : Nat → List J → Option (List J)
  | 0, _ => none
  | _ + 1, [] => some []
  | fuel + 1, x :: xs => do
    let d ← fromValueF fuel x
    let ds ← decodeListF fuel xs
    some (d :: ds)

/-- Fuelled iteration of a range-for over an object json (it yields the
values), used when the `values` payload of an `arrayValue` is an object. -/
def decodeValsF : Nat → List (String × J) → Option (List J)
  | 0, _ => none
  | _ + 1, [] => some []
  | fuel + 1, (_, v) :: rest => do
    let d ← fromValueF fuel v
    let ds ← decodeValsF fuel rest
    some (d :: ds)
end

/-- Models `fromValue` from mini_firestore.cpp (see `fromValueF`). -/
def fromValue (j : J) : Option J :=
  fromValueF (jSize j) j

/-- Models `fromFields` from mini_firestore.cpp: looks up `fields` (a
`const operator[]` access, so a missing key or a non-object argument
raises, i.e. `none`) and decodes every entry of the payload. -/
def fromFields (j : J) : Option J :=
  match j with
  | J.obj l =>
    match findVal l "fields" with
    | some f => decodeDocPayloadF (jSize f) f
    | none => none
  | _ => none

mutual
/-- The value restriction of claim C1: built from strings, numbers,
booleans, nested arrays and nested objects (no null). -/
def goodVal : J → Bool
  | J.null => false
  | J.b _ => true
  | J.num _ => true
  | J.str _ => true
  | J.arr xs => goodList xs
  | J.obj l => goodFields l

def goodList : List J → Bool
  | [] => true
  | x :: xs => goodVal x && goodList xs

def goodFields : List (String × J) → Bool
  | [] => true
  | (_, v) :: l => goodVal v && goodFields l
end

/-!
Timestamp conversion (`timeToISO8601` / `ISO8601ToTime`).

The C library calls (`gmtime_r`, `strftime "%FT%TZ"`, `sscanf`, `mktime`,
`localtime_r`) are modelled by their POSIX semantics over the proleptic
Gregorian calendar.  The ambient local-timezone setting is modelled as a
constant offset `tzOffset` in seconds east of UTC (a fixed-offset zone such
as UTC itself or Asia/Kolkata; no DST), so `localtime_r t` is the civil time
of `t + tzOffset` and `mktime tm` (with `tm_isdst = 0`) is
`civil-to-seconds tm - tzOffset`.  The civil/day conversions use the
standard era-based algorithm; divisions are `Int.tdiv` (C truncation),
operating on non-negative operands after the era shift.
-/

/-- Days since 1970-01-01 of a civil date (proleptic Gregorian). -/
def daysFromCivil (y m d : Int) : Int :=
  let y' := if m ≤ 2 then y - 1 else y
  let era := (if 0 ≤ y' then y' else y' - 399).tdiv 400
  let yoe := y' - era * 400
  let mp := if 2 < m then m - 3 else m + 9
  let doy := (153 * mp + 2).tdiv 5 + d - 1
  let doe := yoe * 365 + yoe.tdiv 4 - yoe.tdiv 100 + doy
  era * 146097 + doe - 719468

/-- Civil date (year, month, day) of a count of days since 1970-01-01. -/
def civilFromDays (z0 : Int) : Int × Int × Int :=
  let z := z0 + 719468
  let era := (if 0 ≤ z then z else z - 146096).tdiv 146097
  let doe := z - era * 146097
  let yoe := (doe - doe.tdiv 1460 + doe.tdiv 36524 - doe.tdiv 146096).tdiv 365
  let y := yoe + era * 400
  let doy := doe - (365 * yoe + yoe.tdiv 4 - yoe.tdiv 100)
  let mp := (5 * doy + 2).tdiv 153
  let d := doy - (153 * mp + 2).tdiv 5 + 1
  let m := if mp < 10 then mp + 3 else mp - 9
  (if m ≤ 2 then y + 1 else y, m, d)

/-- Seconds past UTC midnight of an epoch instant (floor division, as
`gmtime` handles instants before 1970 too). -/
def secondsOfDay (t : Int) : Int :=
  t - 86400 * t.fdiv 86400

/-- `tm_hour` of `gmtime(t)`; with the fixed-offset timezone model,
`localtime(t)` has hour `gmtimeHour (t + tzOffset)`. -/
def gmtimeHour (t : Int) : Int :=
  (secondsOfDay t).tdiv 3600

/-- Two-digit zero padded rendering (strftime `%m`/`%d`/`%H`/`%M`/`%S`). -/
def pad2 (n : Int) : String :=
  if n < 10 then "0" ++ toString n else toString n

/-- Models `timeToISO8601`: `strftime "%FT%TZ"` of `gmtime(t)` — the UTC
civil time rendered as `YYYY-MM-DDTHH:MM:SSZ` (`%Y` renders the year in
decimal without padding). -/
def timeToISO8601 (t : Int) : J :=
  let days := t.fdiv 86400
  let c := civilFromDays days
  let r := secondsOfDay t
  J.str (toString c.1 ++ "-" ++ pad2 c.2.1 ++ "-" ++ pad2 c.2.2 ++ "T"
    ++ pad2 (r.tdiv 3600) ++ ":" ++ pad2 ((r.tmod 3600).tdiv 60) ++ ":" ++ pad2 (r.tmod 60)
    ++ "Z")

/-- `scanf %d` digit run, at most `w` more characters, `acc` so far,
`seen` records whether at least one digit was consumed. -/
def scanDigits : Nat → List Char → Nat → Bool → Option (Nat × List Char)
  | 0, cs, acc, seen => if seen then some (acc, cs) else none
  | _ + 1, [], acc, seen => if seen then some (acc, []) else none
  | w + 1, c :: cs, acc, seen =>
    if c.isDigit then scanDigits w cs (acc * 10 + (c.toNat - 48)) true
    else if seen then some (acc, c :: cs) else none

/-- `sscanf` conversion `%wd`: skip whitespace, optional sign (counted in
the field width), then at least one digit. -/
def scanIntW (w : Nat) (cs : List Char) : Option (Int × List Char) :=
  match cs.dropWhile atoiSpace with
  | '-' :: rest => (scanDigits (w - 1) rest 0 false).map (fun p => (-(Int.ofNat p.1), p.2))
  | '+' :: rest => (scanDigits (w - 1) rest 0 false).map (fun p => (Int.ofNat p.1, p.2))
  | rest => (scanDigits w rest 0 false).map (fun p => (Int.ofNat p.1, p.2))

/-- A literal character directive of `sscanf`. -/
def expectChar (c : Char) : List Char → Option (List Char)
  | c' :: rest => if c' = c then some rest else none
  | [] => none

/-- Would the trailing `.%d` of the scan format match here?  If it does,
`sscanf` returns 7 fields and `ISO8601ToTime` rejects (`n != 6`). -/
def probeDotInt (cs : List Char) : Bool :=
  match cs with
  | '.' :: rest =>
    (match rest.dropWhile atoiSpace with
     | '-' :: r2 => (r2.headD 'x').isDigit
     | '+' :: r2 => (r2.headD 'x').isDigit
     | r2 => (r2.headD 'x').isDigit)
  | _ => false

/-- Models the `sscanf(str, "%04d-%02d-%02dT%02d:%02d:%02d.%dZ", ...)` call
of `ISO8601ToTime`: succeeds iff exactly the first six conversions match
(`n == 6`), returning (year, month, day, hour, minute, second). -/
def scanTimestamp (s : String) : Option (Int × Int × Int × Int × Int × Int) := do
  let (y, r1) ← scanIntW 4 s.data
  let r2 ← expectChar '-' r1
  let (mo, r3) ← scanIntW 2 r2
  let r4 ← expectChar '-' r3
  let (d, r5) ← scanIntW 2 r4
  let r6 ← expectChar 'T' r5
  let (h, r7) ← scanIntW 2 r6
  let r8 ← expectChar ':' r7
  let (mi, r9) ← scanIntW 2 r8
  let r10 ← expectChar ':' r9
  let (se, r11) ← scanIntW 2 r10
  if probeDotInt r11 then none else some (y, mo, d, h, mi, se)

/-- Models `ISO8601ToTime` under a fixed local-timezone offset `tzOffset`
(seconds east of UTC).  Mirrors the source: reject non-strings and the
empty string; scan the six fields (the source then subtracts 1900 from the
year and 1 from the month, which `mktime` adds back, so the net civil date
is used directly); `mktime` with `tm_isdst = 0` interprets the fields as
local wall time, giving `civil seconds - tzOffset`; finally add
`(localtime(t0).tm_hour - gmtime(t0).tm_hour) * 3600` computed at the fixed
probe instant `t0 = 1000000`. -/
def ISO8601ToTime (tzOffset : Int) (j : J) : Option Int :=
  match j with
  | J.str s =>
    if s = "" then none
    else
      match scanTimestamp s with
      | none => none
      | some (y, mo, d, h, mi, se) =>
        let ts := daysFromCivil y mo d * 86400 + h * 3600 + mi * 60 + se - tzOffset
        let delta := gmtimeHour (1000000 + tzOffset) - gmtimeHour 1000000
        some (ts + delta * 3600)
  | _ => none

/-!
Request pool and session model (`Firestore::OTFRequests`, `allocRequest`,
`hasFinished`, `update`).

`Request` objects are identified by allocation order (`Nat` object ids,
modelling the heap pointers).  `free` models `free_requests` as a stack
(vector `push_back`/`pop_back` at the end ≡ list head), `inflight` models
the ids stored in the `on_the_fly_request` map, and `inCallback` holds the
ids of requests whose completion callback is currently running — `update`
erases a completed request from the map, then runs its callback, and only
afterwards `unregisterRequest` pushes it onto the free list, so during the
callback the request is in neither container.  `nextObj` counts how many
`Request` objects were ever allocated with `new`. -/
structure Pool where
  free : List Nat
  inflight : List Nat
  inCallback : List Nat
  nextObj : Nat
  nextReqId : Nat

def Pool.emptyPool : Pool :=
  ⟨[], [], [], 0, 0⟩

/-- One `allocRequest` call on a live pool: `newRequest` pops the free list
or allocates a fresh object, then `registerRequest` puts it in the
in-flight map. -/
def submitP (p : Pool) : Pool :=
  match p.free with
  | o :: rest =>
    { p with free := rest, inflight := (o :: p.inflight), nextReqId := p.nextReqId + 1 }
  | [] =>
    { p with nextObj := p.nextObj + 1, inflight := (p.nextObj :: p.inflight), nextReqId := p.nextReqId + 1 }

/-- Session states reachable by any sequence of `configure`, `disconnect`,
`allocRequest` and `update` calls.  `none` is a session whose `otf` pointer
is null (never configured, or disconnected).  A completion observed inside
`update` is split into its two visible moments: `cbBegin` (the request is
erased from the in-flight map and its callback starts — the callback may
itself submit new requests or poll again, which later constructors cover)
and `cbEnd` (the callback returned and `unregisterRequest` pushes the
request back onto the free list). -/
inductive Reach : Option Pool → Prop
  | init : Reach none
  | configure {s : Option Pool} : Reach s → Reach (some (s.getD Pool.emptyPool))
  | disconnect {s : Option Pool} : Reach s → Reach none
  | submit {p : Pool} : Reach (some p) → Reach (some (submitP p))
  | cbBegin {p : Pool} {o : Nat} : Reach (some p) → o ∈ p.inflight →
      Reach (some { p with inflight := p.inflight.erase o, inCallback := o :: p.inCallback })
  | cbEnd {p : Pool} {o : Nat} {rest : List Nat} : Reach (some p) →
      p.inCallback = o :: rest →
      Reach (some { p with inCallback := rest, free := o :: p.free })

/-- Models `Firestore::hasFinished`:
`return otf && otf->on_the_fly_request.empty();`. -/
def hasFinished : Option Pool → Bool
  | none => false
  | some p => p.inflight.isEmpty

/-- The in-flight set of a session (empty when there is no pool). -/
def sessionInflight : Option Pool → List Nat
  | none => []
  | some p => p.inflight

/-- Pool bookkeeping invariant: the free list, the in-flight map and the
set of requests currently inside their completion callback are duplicate
free and pairwise disjoint, and every object id was allocated (is below
the allocation counter). -/
def PoolInv (p : Pool) : Prop :=
  p.free.Nodup ∧ p.inflight.Nodup ∧ p.inCallback.Nodup ∧
  (∀ o, o ∈ p.free → o ∉ p.inflight) ∧
  (∀ o, o ∈ p.free → o ∉ p.inCallback) ∧
  (∀ o, o ∈ p.inflight → o ∉ p.inCallback) ∧
  (∀ o, o ∈ p.free → o < p.nextObj) ∧
  (∀ o, o ∈ p.inflight → o < p.nextObj) ∧
  (∀ o, o ∈ p.inCallback → o < p.nextObj)

def SessionInv : Option Pool → Prop
  | none => True
  | some p => PoolInv p

/-!
Completion handling of `Firestore::OTFRequests::update`.  The structured
json parser (`json::parse(text, nullptr, false)` followed by
`is_discarded()`) is an external collaborator, modelled as an arbitrary
function `parse : String → Option J` (`none` = discarded). -/

/-- Models the error probe on a parsed response:
`j.contains("error") || (j.is_array() && j[0].contains("error"))`.
`j[0]` on a non-const empty array default-inserts a null element. -/
def detectError (j : J) : Bool :=
  containsKey j "error" ||
    (match j with
     | J.arr (x :: _) => containsKey x "error"
     | J.arr [] => containsKey J.null "error"
     | _ => false)

/-- Models the error classification done by `update` for one completed
transaction with accumulated response body `recv`: empty body, discarded
parse, or the error probe hits ⇒ `err = -1`; otherwise `err = 0`. -/
def updateResultErr (parse : String → Option J) (recv : String) : Int :=
  if recv = "" then -1
  else
    match parse recv with
    | none => -1
    | some j => if detectError j then -1 else 0

/-!
`Ref::read`'s response adapter (`pre_cb`).  `Result` carries the error
indicator, the raw text, the structured value and the id assigned by `add`.
-/

def ERR_DOC_MISSING : Int := 1

structure ResultM where
  err : Int
  str : String
  j : J
  added_id : String

/-- Models the `pre_cb` lambda of `Ref::read`: on a successful transport
result (`err == 0`), move out element 0 of the response array (the source
asserts `is_array()`; a non-array aborts, and `result.j[0]` on an empty
array default-inserts a null element), then a `found` wrapper decodes the
document, a `missing` wrapper sets `ERR_DOC_MISSING` with an empty object,
and any other element leaves the error untouched (with the moved-from
element now null).  The resulting `ResultM` is what the user callback
receives; `none` models an abort/raise. -/
def readPreCb (r : ResultM) : Option ResultM :=
  if r.err = 0 then
    match r.j with
    | J.arr (j0 :: rest) =>
      (match j0 with
       | J.obj l0 =>
         (match findVal l0 "found" with
          | some w => (fromValue w).map (fun d => { r with j := d })
          | none =>
            match findVal l0 "missing" with
            | some _ => some { r with err := ERR_DOC_MISSING, j := J.obj [] }
            | none => some { r with j := J.arr (J.null :: rest) })
       | _ => some { r with j := J.arr (J.null :: rest) })
    | J.arr [] => some { r with j := J.arr [J.null] }
    | _ => none
  else
    some r

/-!
Query compiler (`Ref::query` and the `to_json` helpers).
-/

inductive COp where
  | Equal | NotEqual | GreaterThan | GreaterThanOrEqual
  | LessThan | LessThanOrEqual | ArrayContains | ArrayContainsAny
  | In | NotIn

/-- Models `conditionOperatorName`. -/
def conditionOperatorName : COp → String
  | COp.Equal => "EQUAL"
  | COp.NotEqual => "NOT_EQUAL"
  | COp.GreaterThan => "GREATER_THAN"
  | COp.GreaterThanOrEqual => "GREATER_THAN_OR_EQUAL"
  | COp.LessThan => "LESS_THAN"
  | COp.LessThanOrEqual => "LESS_THAN_OR_EQUAL"
  | COp.ArrayContains => "ARRAY_CONTAINS"
  | COp.ArrayContainsAny => "ARRAY_CONTAINS_ANY"
  | COp.In => "IN"
  | COp.NotIn => "NOT_IN"

structure Condition where
  field_name : String
  op : COp
  ref_value : J

inductive EDirection where
  | ASCENDING | DESCENDING

structure OrderBy where
  field_name : String
  direction : EDirection

structure Query where
  conditions : List Condition
  first : Int
  limit : Int
  order_by : List OrderBy

/-- Models `to_json(json&, const Condition&)`. -/
def conditionToJson (c : Condition) : J :=
  J.obj [("fieldFilter", J.obj [
    ("field", J.obj [("fieldPath", J.str c.field_name)]),
    ("op", J.str (conditionOperatorName c.op)),
    ("value", asValue c.ref_value)])]

/-- Models `to_json(json&, const Query::OrderBy&)`. -/
def orderByToJson (o : OrderBy) : J :=
  J.obj [("field", J.obj [("fieldPath", J.str o.field_name)]),
    ("direction", J.str (match o.direction with
      | EDirection.DESCENDING => "DESCENDING"
      | EDirection.ASCENDING => "ASCENDING"))]

/-- `obj[key] = v` on an object: replace the binding if present, append
otherwise.  (nlohmann keeps objects key-sorted; every statement proved
about the built query goes through `jLookup`, on which the two layouts
agree.) -/
def setAssoc : List (String × J) → String → J → List (String × J)
  | [], key, v => [(key, v)]
  | (k, w) :: rest, key, v =>
    if k = key then (key, v) :: rest else (k, w) :: setAssoc rest key v

def setKey (j : J) (key : String) (v : J) : J :=
  match j with
  | J.obj l => J.obj (setAssoc l key v)
  | J.null => J.obj [(key, v)]
  | _ => j

/-- The `where` clause built by `Ref::query` for a non-empty condition
list: an `AND` composite filter over the serialized conditions, in list
order. -/
def whereClause (q : Query) : J :=
  J.obj [("compositeFilter", J.obj [
    ("filters", J.arr (q.conditions.map conditionToJson)),
    ("op", J.str "AND")])]

/-- The `structuredQuery` object built by `Ref::query`: `from` always;
`where` only when there are conditions; `orderBy` only when non-empty;
`limit` only when positive (the `first` field is commented out in the
source). -/
def queryStructured (collectionId : String) (q : Query) : J :=
  let sq := J.obj [("from", J.obj [("collectionId", J.str collectionId)])]
  let sq := if q.conditions.isEmpty then sq else setKey sq "where" (whereClause q)
  let sq := if q.order_by.isEmpty then sq
    else setKey sq "orderBy" (J.arr (q.order_by.map orderByToJson))
  if q.limit > 0 then setKey sq "limit" (J.num q.limit) else sq

/-- The full request body built by `Ref::query` after splitting the path
into parent and collection id. -/
def queryBody (docRoot parent collectionId : String) (q : Query) : J :=
  J.obj [("structuredQuery", queryStructured collectionId q),
    ("parent", J.str (docRoot ++ parent))]

/-!
URL composition in `Firestore::allocRequest`.
-/

def RPC_FLAG_DELETE : Nat := 1
def RPC_FLAG_TRACE : Nat := 2
def RPC_FLAG_CONNECT : Nat := 4
def RPC_FLAG_GET : Nat := 8
def RPC_FLAG_PATCH : Nat := 16

/-- Models the URL composition of `Firestore::allocRequest`: except for a
CONNECT request, start from `url_root` and append a `/` unless the suffix
begins with `:` (C++ `std::string::operator[]` at index 0 of an empty
string reads the terminating null character), then append the suffix. -/
def allocRequestUrl (url_root url_suffix : String) (flags : Nat) : String :=
  let url : String :=
    if flags &&& RPC_FLAG_CONNECT = 0 then
      if url_suffix.data.headD (Char.ofNat 0) ≠ ':' then url_root ++ "/" else url_root
    else ""
  url ++ url_suffix

/-!
Helper lemmas.
-/

theorem jSize_pos (j : J) : 1 ≤ jSize j := by
  cases j <;> simp [jSize]

theorem jSizeList_pos (xs : List J) : 1 ≤ jSizeList xs := by
  cases xs <;> simp [jSizeList]

theorem jSizeFields_pos (l : List (String × J)) : 1 ≤ jSizeFields l := by
  cases l with
  | nil => simp [jSizeFields]
  | cons kv rest => obtain ⟨k, v⟩ := kv; simp [jSizeFields]

/-- Round-trip core: with enough fuel (the size of the encoded value
suffices, every recursive call of the decoder consumes strictly more
encoded size than fuel), decoding an encoded good value yields it back. -/
theorem rt_all (fuel : Nat) :
    (∀ j, goodVal j = true → jSize (asValue j) ≤ fuel →
      fromValueF fuel (asValue j) = some j) ∧
    (∀ xs, goodList xs = true → jSizeList (asValueList xs) ≤ fuel →
      decodeListF fuel (asValueList xs) = some xs) ∧
    (∀ l, goodFields l = true → jSizeFields (asValueFields l) ≤ fuel →
      decodeFieldsListF fuel (asValueFields l) = some l) := by
  induction fuel using Nat.strong_induction_on with
  | _ fuel ih =>
    refine ⟨?_, ?_, ?_⟩
    · intro j hg hsz
      cases j with
      | null => simp [goodVal] at hg
      | b v =>
        simp [asValue, jSize, jSizeFields] at hsz
        cases fuel with
        | zero => omega
        | succ f => simp [asValue, fromValueF, findVal]
      | num n =>
        simp [asValue, jSize, jSizeFields] at hsz
        cases fuel with
        | zero => omega
        | succ f => simp [asValue, fromValueF, findVal]
      | str s =>
        rcases Bool.eq_false_or_eq_true (isTimeISO8601 s) with hts | hts
        · simp [asValue, hts, jSize, jSizeFields] at hsz
          cases fuel with
          | zero => omega
          | succ f => simp [asValue, hts, fromValueF, findVal]
        · simp [asValue, hts, jSize, jSizeFields] at hsz
          cases fuel with
          | zero => omega
          | succ f => simp [asValue, hts, fromValueF, findVal]
      | arr xs =>
        simp [goodVal] at hg
        simp [asValue, jSize, jSizeFields, jSizeList] at hsz
        cases fuel with
        | zero => omega
        | succ f =>
          have h2 : jSizeList (asValueList xs) ≤ f := by omega
          have hdec := (ih f (Nat.lt_succ_self f)).2.1 xs hg h2
          simp [asValue, fromValueF, findVal, hdec]
      | obj l =>
        simp [goodVal] at hg
        simp [asValue, jSize, jSizeFields] at hsz
        cases fuel with
        | zero => omega
        | succ f =>
          cases f with
          | zero => omega
          | succ f' =>
            have h3 : jSizeFields (asValueFields l) ≤ f' := by omega
            have hdec := (ih f' (by omega)).2.2 l hg h3
            simp [asValue, fromValueF, findVal, decodeDocPayloadF, hdec]
    · intro xs hg hsz
      cases xs with
      | nil =>
        simp [asValueList, jSizeList] at hsz
        cases fuel with
        | zero => omega
        | succ f => simp [asValueList, decodeListF]
      | cons x xs' =>
        simp [goodList, Bool.and_eq_true] at hg
        simp [asValueList, jSizeList] at hsz
        cases fuel with
        | zero => omega
        | succ f =>
          have hp1 := jSize_pos (asValue x)
          have hp2 := jSizeList_pos (asValueList xs')
          have h1 : jSize (asValue x) ≤ f := by omega
          have h2 : jSizeList (asValueList xs') ≤ f := by omega
          have d1 := (ih f (Nat.lt_succ_self f)).1 x hg.1 h1
          have d2 := (ih f (Nat.lt_succ_self f)).2.1 xs' hg.2 h2
          simp [asValueList, decodeListF, d1, d2]
    · intro l hg hsz
      cases l with
      | nil =>
        simp [asValueFields, jSizeFields] at hsz
        cases fuel with
        | zero => omega
        | succ f => simp [asValueFields, decodeFieldsListF]
      | cons kv rest =>
        obtain ⟨k, v⟩ := kv
        simp [goodFields, Bool.and_eq_true] at hg
        simp [asValueFields, jSizeFields] at hsz
        cases fuel with
        | zero => omega
        | succ f =>
          have hp1 := jSize_pos (asValue v)
          have hp2 := jSizeFields_pos (asValueFields rest)
          have h1 : jSize (asValue v) ≤ f := by omega
          have h2 : jSizeFields (asValueFields rest) ≤ f := by omega
          have d1 := (ih f (Nat.lt_succ_self f)).1 v hg.1 h1
          have d2 := (ih f (Nat.lt_succ_self f)).2.2 rest hg.2 h2
          simp [asValueFields, decodeFieldsListF, d1, d2]

/-- C1: for every generic structured document value whose fields are built
from strings, numbers, booleans, nested arrays and nested objects, decoding
the encoding is the identity: `fromFields (asDocument v) = v` (the decoder
returns it without raising, hence `some`). -/
theorem c1_document_roundtrip (l : List (String × J)) (h : goodVal (J.obj l) = true) :
    fromFields (asDocument (J.obj l)) = some (J.obj l) := by
  have hg : goodFields l = true := by simpa [goodVal] using h
  have hrt := (rt_all (jSizeFields (asValueFields l))).2.2 l hg (le_refl _)
  simp [asDocument, fromFields, findVal, jSize, decodeDocPayloadF, hrt]

theorem c1_document_roundtrip_witness :
    goodVal (J.obj [("age", J.num 32), ("name", J.str "john"),
      ("tags", J.arr [J.str "a", J.b true]),
      ("addr", J.obj [("city", J.str "x"), ("when", J.str "2022-04-15T14:25:30Z")])]) = true ∧
    fromFields (asDocument (J.obj [("age", J.num 32), ("name", J.str "john"),
      ("tags", J.arr [J.str "a", J.b true]),
      ("addr", J.obj [("city", J.str "x"), ("when", J.str "2022-04-15T14:25:30Z")])]))
      = some (J.obj [("age", J.num 32), ("name", J.str "john"),
        ("tags", J.arr [J.str "a", J.b true]),
        ("addr", J.obj [("city", J.str "x"), ("when", J.str "2022-04-15T14:25:30Z")])]) :=
  ⟨rfl, c1_document_roundtrip _ rfl⟩


/-- The error probe of `update` holds exactly when the parsed value is an
object containing an `error` key, or an array whose first element is an
object containing an `error` key. -/
theorem detectError_iff (j : J) :
    detectError j = true ↔
      ((∃ l, j = J.obj l ∧ (findVal l "error").isSome = true) ∨
       (∃ x xs lx, j = J.arr (x :: xs) ∧ x = J.obj lx ∧ (findVal lx "error").isSome = true)) := by
  cases j with
  | null => simp [detectError, containsKey]
  | b v => simp [detectError, containsKey]
  | num n => simp [detectError, containsKey]
  | str s => simp [detectError, containsKey]
  | obj l => simp [detectError, containsKey]
  | arr xs =>
    cases xs with
    | nil => simp [detectError, containsKey]
    | cons x xs' =>
      cases x <;> simp [detectError, containsKey]

/-- C2: for every transaction completion observed by one poll step, the
Result error indicator is set to -1 iff the accumulated body is empty, or
fails to parse, or the parsed value is an object containing an `error` key,
or is an array whose first element is an object containing an `error` key;
otherwise it is set to 0 (and no other value is ever produced). -/
theorem c2_update_error_classification (parse : String → Option J) (recv : String) :
    (updateResultErr parse recv = -1 ↔
      (recv = "" ∨ parse recv = none ∨
        (∃ l, parse recv = some (J.obj l) ∧ (findVal l "error").isSome = true) ∨
        (∃ x xs lx, parse recv = some (J.arr (x :: xs)) ∧ x = J.obj lx ∧
          (findVal lx "error").isSome = true))) ∧
    (updateResultErr parse recv = -1 ∨ updateResultErr parse recv = 0) := by
  constructor
  · by_cases hr : recv = ""
    · simp [updateResultErr, hr]
    · cases hp : parse recv with
      | none => simp [updateResultErr, hr, hp]
      | some j =>
        cases j with
        | null => simp [updateResultErr, hr, hp, detectError, containsKey]
        | b v => simp [updateResultErr, hr, hp, detectError, containsKey]
        | num n => simp [updateResultErr, hr, hp, detectError, containsKey]
        | str s => simp [updateResultErr, hr, hp, detectError, containsKey]
        | obj l =>
          rcases Bool.eq_false_or_eq_true ((findVal l "error").isSome) with hs | hs <;>
            simp [updateResultErr, hr, hp, detectError, containsKey, hs]
        | arr xs =>
          cases xs with
          | nil => simp [updateResultErr, hr, hp, detectError, containsKey]
          | cons x xs' =>
            cases x with
            | obj lx =>
              rcases Bool.eq_false_or_eq_true ((findVal lx "error").isSome) with hs | hs <;>
                simp [updateResultErr, hr, hp, detectError, containsKey, hs]
            | null => simp [updateResultErr, hr, hp, detectError, containsKey]
            | b v => simp [updateResultErr, hr, hp, detectError, containsKey]
            | num n => simp [updateResultErr, hr, hp, detectError, containsKey]
            | str s => simp [updateResultErr, hr, hp, detectError, containsKey]
            | arr ys => simp [updateResultErr, hr, hp, detectError, containsKey]
  · by_cases hr : recv = ""
    · simp [updateResultErr, hr]
    · cases hp : parse recv with
      | none => simp [updateResultErr, hr, hp]
      | some j =>
        rcases Bool.eq_false_or_eq_true (detectError j) with hd | hd <;>
          simp [updateResultErr, hr, hp, hd]

/-- C3: the claimed universal timestamp round-trip fails on the code.  Under
the fixed-offset local timezone UTC+05:30 (e.g. Asia/Kolkata, a real
timezone setting with no DST), decoding the encoding of t = 0 yields 1800,
not 0: the code corrects `mktime` with a whole-hour delta measured at the
probe instant 1000000, which rounds the +5:30 offset to +6 hours.  Under
UTC the round-trip does return 0 at the same instant, isolating the
timezone handling as the broken part. -/
theorem c3_timestamp_roundtrip_failure :
    ISO8601ToTime 19800 (timeToISO8601 0) = some 1800 ∧
    ISO8601ToTime 0 (timeToISO8601 0) = some 0 ∧
    (1800 : Int) ≠ 0 :=
  ⟨rfl, rfl, by decide⟩

/-- C5: `asValue` wraps a string as a `timestampValue` iff it matches the
fixed-format Zulu positional pattern (spelled out from the spec as
`specZuluPattern`); every other string is wrapped as a plain `stringValue`;
and in both cases the wire value decodes back to the same plain string. -/
theorem c5_string_timestamp_classification (s : String) :
    (asValue (J.str s) = J.obj [("timestampValue", J.str s)] ↔ specZuluPattern s = true) ∧
    (asValue (J.str s) = J.obj [("timestampValue", J.str s)] ∨
      asValue (J.str s) = J.obj [("stringValue", J.str s)]) ∧
    fromValue (asValue (J.str s)) = some (J.str s) := by
  have hspec : isTimeISO8601 s = specZuluPattern s := by
    by_cases hl : s.length ≥ 20 <;> simp [isTimeISO8601, specZuluPattern, hl]
  refine ⟨?_, ?_, ?_⟩
  · rw [← hspec]
    rcases Bool.eq_false_or_eq_true (isTimeISO8601 s) with hts | hts <;> simp [asValue, hts]
  · rcases Bool.eq_false_or_eq_true (isTimeISO8601 s) with hts | hts <;> simp [asValue, hts]
  · rcases Bool.eq_false_or_eq_true (isTimeISO8601 s) with hts | hts <;>
      · simp only [asValue, hts, if_true, if_false, fromValue, jSize]
        simp [fromValueF, findVal]

/-- C4: on a read whose batch-get response parsed successfully (err = 0)
and holds a single element, a `missing` wrapper makes the callback see the
distinguished positive code ERR_DOC_MISSING = 1 with an empty object, and a
`found` wrapper yields error 0 with the decoded document. -/
theorem c4_read_missing_found (rm rf : ResultM) (lm : List (String × J)) (e : J) (w dec : J)
    (hm_err : rm.err = 0) (hm_j : rm.j = J.arr [J.obj lm])
    (hm_nf : findVal lm "found" = none) (hm_miss : (findVal lm "missing").isSome = true)
    (hf_err : rf.err = 0) (hf_j : rf.j = J.arr [e])
    (hf_found : jLookup e "found" = some w) (hf_dec : fromValue w = some dec) :
    readPreCb rm = some { rm with err := ERR_DOC_MISSING, j := J.obj [] } ∧
    ERR_DOC_MISSING = 1 ∧ (0 : Int) < ERR_DOC_MISSING ∧
    readPreCb rf = some { rf with j := dec } ∧
    ({ rf with j := dec } : ResultM).err = 0 := by
  obtain ⟨mv, hmv⟩ := Option.isSome_iff_exists.mp hm_miss
  refine ⟨?_, rfl, by decide, ?_, ?_⟩
  · simp [readPreCb, hm_err, hm_j, hm_nf, hmv]
  · cases e with
    | obj l0 =>
      simp only [jLookup] at hf_found
      simp [readPreCb, hf_err, hf_j, hf_found, hf_dec]
    | null => simp [jLookup] at hf_found
    | b v => simp [jLookup] at hf_found
    | num n => simp [jLookup] at hf_found
    | str s => simp [jLookup] at hf_found
    | arr ys => simp [jLookup] at hf_found
  · simp [hf_err]

theorem c4_read_missing_found_witness :
    readPreCb ⟨0, "", J.arr [J.obj [("missing", J.str "p")]], ""⟩
      = some ⟨1, "", J.obj [], ""⟩ ∧
    readPreCb ⟨0, "", J.arr [J.obj [("found",
        J.obj [("fields", J.obj [("a", J.obj [("doubleValue", J.num 7)])])])]], ""⟩
      = some ⟨0, "", J.obj [("a", J.num 7)], ""⟩ := by
  have h := c4_read_missing_found
    ⟨0, "", J.arr [J.obj [("missing", J.str "p")]], ""⟩
    ⟨0, "", J.arr [J.obj [("found",
      J.obj [("fields", J.obj [("a", J.obj [("doubleValue", J.num 7)])])])]], ""⟩
    [("missing", J.str "p")]
    (J.obj [("found", J.obj [("fields", J.obj [("a", J.obj [("doubleValue", J.num 7)])])])])
    (J.obj [("fields", J.obj [("a", J.obj [("doubleValue", J.num 7)])])])
    (J.obj [("a", J.num 7)])
    rfl rfl rfl rfl rfl rfl rfl rfl
  exact ⟨h.1, h.2.2.2.1⟩

/-- Every reachable session state satisfies the pool invariant. -/
theorem reach_inv {s : Option Pool} (h : Reach s) : SessionInv s := by
  induction h with
  | init => trivial
  | @configure s' _ ih =>
    cases s' with
    | none =>
      refine ⟨?_, ?_, ?_, ?_, ?_, ?_, ?_, ?_, ?_⟩ <;> simp [Pool.emptyPool]
    | some p => exact ih
  | disconnect _ ih => trivial
  | @submit p _ ih =>
    obtain ⟨nf, ni, nc, dfi, dfc, dic, bf, bi, bc⟩ := ih
    cases hfree : p.free with
    | nil =>
      simp only [submitP, hfree]
      refine ⟨List.nodup_nil, ?_, nc, ?_, ?_, ?_, ?_, ?_, ?_⟩
      · exact List.nodup_cons.mpr ⟨fun hmem => absurd (bi _ hmem) (lt_irrefl _), ni⟩
      · exact fun o ho => absurd ho (List.not_mem_nil o)
      · exact fun o ho => absurd ho (List.not_mem_nil o)
      · intro o ho
        rcases List.mem_cons.mp ho with rfl | ho'
        · exact fun hc => absurd (bc _ hc) (lt_irrefl _)
        · exact dic o ho'
      · exact fun o ho => absurd ho (List.not_mem_nil o)
      · intro o ho
        rcases List.mem_cons.mp ho with rfl | ho'
        · exact Nat.lt_succ_self _
        · exact Nat.lt_succ_of_lt (bi o ho')
      · exact fun o ho => Nat.lt_succ_of_lt (bc o ho)
    | cons a rest =>
      simp only [submitP, hfree]
      have nf' : a ∉ rest ∧ rest.Nodup := by
        rw [hfree] at nf
        exact List.nodup_cons.mp nf
      have haf : a ∈ p.free := by rw [hfree]; exact List.mem_cons_self a rest
      have hsub : ∀ x, x ∈ rest → x ∈ p.free := by
        intro x hx
        rw [hfree]
        exact List.mem_cons_of_mem _ hx
      refine ⟨nf'.2, ?_, nc, ?_, ?_, ?_, ?_, ?_, bc⟩
      · exact List.nodup_cons.mpr ⟨dfi a haf, ni⟩
      · intro x hx hxi
        rcases List.mem_cons.mp hxi with rfl | hxi'
        · exact nf'.1 hx
        · exact dfi x (hsub x hx) hxi'
      · exact fun x hx => dfc x (hsub x hx)
      · intro x hx
        rcases List.mem_cons.mp hx with rfl | hx'
        · exact dfc x haf
        · exact dic x hx'
      · exact fun x hx => bf x (hsub x hx)
      · intro x hx
        rcases List.mem_cons.mp hx with rfl | hx'
        · exact bf x haf
        · exact bi x hx'
  | @cbBegin p o _ hmem ih =>
    obtain ⟨nf, ni, nc, dfi, dfc, dic, bf, bi, bc⟩ := ih
    refine ⟨nf, List.Nodup.erase o ni, ?_, ?_, ?_, ?_, bf, ?_, ?_⟩
    · exact List.nodup_cons.mpr ⟨dic o hmem, nc⟩
    · intro x hx hxe
      exact dfi x hx (List.mem_of_mem_erase hxe)
    · intro x hx hxc
      rcases List.mem_cons.mp hxc with rfl | hxc'
      · exact dfi x hx hmem
      · exact dfc x hx hxc'
    · intro x hx hxc
      have hx' : x ≠ o ∧ x ∈ p.inflight := (List.Nodup.mem_erase_iff ni).mp hx
      rcases List.mem_cons.mp hxc with rfl | hxc'
      · exact hx'.1 rfl
      · exact dic x hx'.2 hxc'
    · intro x hx
      exact bi x (List.mem_of_mem_erase hx)
    · intro x hx
      rcases List.mem_cons.mp hx with rfl | hx'
      · exact bi x hmem
      · exact bc x hx'
  | @cbEnd p o rest _ hcb ih =>
    obtain ⟨nf, ni, nc, dfi, dfc, dic, bf, bi, bc⟩ := ih
    have hoc : o ∈ p.inCallback := by rw [hcb]; exact List.mem_cons_self o rest
    have hrest : o ∉ rest ∧ rest.Nodup := by
      rw [hcb] at nc
      exact List.nodup_cons.mp nc
    have hrc : ∀ x, x ∈ rest → x ∈ p.inCallback := by
      intro x hx
      rw [hcb]
      exact List.mem_cons_of_mem _ hx
    refine ⟨?_, ni, hrest.2, ?_, ?_, ?_, ?_, bi, ?_⟩
    · exact List.nodup_cons.mpr ⟨fun hof => dfc o hof hoc, nf⟩
    · intro x hx
      rcases List.mem_cons.mp hx with rfl | hx'
      · exact fun hxi => dic x hxi hoc
      · exact dfi x hx'
    · intro x hx
      rcases List.mem_cons.mp hx with rfl | hx'
      · exact hrest.1
      · exact fun hxr => dfc x hx' (hrc x hxr)
    · intro x hx hxr
      exact dic x hx (hrc x hxr)
    · intro x hx
      rcases List.mem_cons.mp hx with rfl | hx'
      · exact bc x hoc
      · exact bf x hx'
    · intro x hx
      exact bc x (hrc x hx)

/-- C6: the compiled structured query has no `where` clause when there are
no conditions; with conditions it has a `compositeFilter` with op `AND`
whose `filters` are the serialized conditions in list order (each a
`fieldFilter` carrying `conditionOperatorName` and the `asValue`-encoded
reference value, see `conditionToJson`); and a `limit` field is emitted iff
the limit is positive.  The first conjunct ties the full body to the
structured-query object. -/
theorem c6_query_compilation (docRoot parent collectionId : String) (q : Query) :
    queryBody docRoot parent collectionId q
      = J.obj [("structuredQuery", queryStructured collectionId q),
          ("parent", J.str (docRoot ++ parent))] ∧
    (q.conditions = [] → jLookup (queryStructured collectionId q) "where" = none) ∧
    (q.conditions ≠ [] → jLookup (queryStructured collectionId q) "where"
      = some (J.obj [("compositeFilter", J.obj [
          ("filters", J.arr (q.conditions.map conditionToJson)),
          ("op", J.str "AND")])])) ∧
    ((jLookup (queryStructured collectionId q) "limit").isSome = true ↔ 0 < q.limit) ∧
    (0 < q.limit → jLookup (queryStructured collectionId q) "limit" = some (J.num q.limit)) := by
  refine ⟨rfl, ?_, ?_, ?_, ?_⟩
  · intro hc
    cases hoo : q.order_by <;> by_cases hl : 0 < q.limit <;>
      simp [queryStructured, hc, hoo, hl, whereClause, setKey, setAssoc, jLookup, findVal]
  · intro hc
    cases hcc : q.conditions with
    | nil => exact absurd hcc hc
    | cons c cs =>
      cases hoo : q.order_by <;> by_cases hl : 0 < q.limit <;>
        simp [queryStructured, hcc, hoo, hl, whereClause, setKey, setAssoc, jLookup, findVal]
  · cases hcc : q.conditions <;> cases hoo : q.order_by <;> by_cases hl : 0 < q.limit <;>
      simp [queryStructured, hcc, hoo, hl, whereClause, setKey, setAssoc, jLookup, findVal]
  · intro hl
    cases hcc : q.conditions <;> cases hoo : q.order_by <;>
      simp [queryStructured, hcc, hoo, hl, whereClause, setKey, setAssoc, jLookup, findVal]

theorem c6_query_compilation_witness :
    jLookup (queryStructured "users" ⟨[⟨"age", COp.GreaterThan, J.num 25⟩], 0, 3,
        [⟨"age", EDirection.DESCENDING⟩]⟩) "where"
      = some (J.obj [("compositeFilter", J.obj [
          ("filters", J.arr [J.obj [("fieldFilter", J.obj [
            ("field", J.obj [("fieldPath", J.str "age")]),
            ("op", J.str "GREATER_THAN"),
            ("value", J.obj [("doubleValue", J.num 25)])])]]),
          ("op", J.str "AND")])]) ∧
    jLookup (queryStructured "users" ⟨[⟨"age", COp.GreaterThan, J.num 25⟩], 0, 3,
        [⟨"age", EDirection.DESCENDING⟩]⟩) "limit" = some (J.num 3) := by
  have h := c6_query_compilation "projects/p/databases/(default)/documents/" "top" "users"
    ⟨[⟨"age", COp.GreaterThan, J.num 25⟩], 0, 3, [⟨"age", EDirection.DESCENDING⟩]⟩
  exact ⟨h.2.2.1 (by simp), h.2.2.2.2 (by decide)⟩

/-- C7 fails as stated: a session that was never configured (reachable by
the empty call sequence) has an empty in-flight set, yet `hasFinished`
returns false (`return otf && ...` with a null `otf`), so `hasFinished` is
not "true iff the in-flight set is empty" over all reachable session
states. -/
theorem c7_unconfigured_counterexample :
    Reach (none : Option Pool) ∧ sessionInflight none = [] ∧
    hasFinished none = false ∧
    ¬(hasFinished (none : Option Pool) = true ↔ sessionInflight (none : Option Pool) = []) := by
  refine ⟨Reach.init, rfl, rfl, ?_⟩
  intro hiff
  have := hiff.mpr rfl
  simp [hasFinished] at this

/-- C7 amended: for every reachable session state whose pool exists
(configured and not disconnected), `hasFinished` returns true iff the
in-flight set is empty; with no pool it returns false regardless. -/
theorem c7_hasFinished_amended {p : Pool} (_h : Reach (some p)) :
    hasFinished (some p) = true ↔ sessionInflight (some p) = [] := by
  simp [hasFinished, sessionInflight, List.isEmpty_iff]

theorem c7_hasFinished_amended_witness : hasFinished (some Pool.emptyPool) = true :=
  (c7_hasFinished_amended (Reach.configure Reach.init)).mpr rfl

/-- C8: in every session state reachable by any sequence of submit/poll
(and configure/disconnect) calls — including the states in which a
completion callback is running — no request object is both on the free
list and in the in-flight map. -/
theorem c8_pool_disjoint {p : Pool} (h : Reach (some p)) :
    ∀ o, o ∈ p.free → o ∉ p.inflight :=
  (reach_inv h).2.2.2.1

theorem c8_pool_disjoint_witness : (0 : Nat) ∉ ([1] : List Nat) := by
  have s2 : Reach (some (⟨[], [1, 0], [], 2, 2⟩ : Pool)) :=
    Reach.submit (Reach.submit (Reach.configure Reach.init))
  have s3 : Reach (some (⟨[], [1], [0], 2, 2⟩ : Pool)) :=
    @Reach.cbBegin ⟨[], [1, 0], [], 2, 2⟩ 0 s2 (by simp)
  have s4 : Reach (some (⟨[0], [1], [], 2, 2⟩ : Pool)) := Reach.cbEnd s3 rfl
  exact c8_pool_disjoint s4 0 (by simp)

/-- C9 fails as stated: `fromValue` is not total over wire values.  A
malformed but reachable wire value makes the source raise: a non-string
`integerValue` payload throws in `get<std::string>`, and a `mapValue`
payload without a `fields` key hits the failing `const operator[]` access
inside `fromFields` — both modelled as `none`. -/
theorem c9_integerValue_counterexample :
    fromValue (J.obj [("integerValue", J.num 42)]) = none ∧
    fromValue (J.obj [("mapValue", J.obj [])]) = none :=
  ⟨rfl, rfl⟩

/-- C9 amended (the spec's own sentence): an object carrying none of the
recognized wire-type keys decodes to the empty/null value without failing,
and an `arrayValue` whose payload has no `values` key decodes to the empty
array without failing; totality over arbitrary malformed wire values does
not hold (see the counterexample). -/
theorem c9_unknown_key_null_amended (l la : List (String × J)) (av : J)
    (h1 : findVal l "fields" = none) (h2 : findVal l "mapValue" = none)
    (h3 : findVal l "stringValue" = none) (h4 : findVal l "booleanValue" = none)
    (h5 : findVal l "timestampValue" = none) (h6 : findVal l "arrayValue" = none)
    (h7 : findVal l "doubleValue" = none) (h8 : findVal l "integerValue" = none)
    (ha1 : findVal la "fields" = none) (ha2 : findVal la "mapValue" = none)
    (ha3 : findVal la "stringValue" = none) (ha4 : findVal la "booleanValue" = none)
    (ha5 : findVal la "timestampValue" = none)
    (ha6 : findVal la "arrayValue" = some av)
    (hav : ∀ lv, av = J.obj lv → findVal lv "values" = none) :
    fromValue (J.obj l) = some J.null ∧ fromValue (J.obj la) = some (J.arr []) := by
  constructor
  · simp only [fromValue, jSize]
    simp [fromValueF, h1, h2, h3, h4, h5, h6, h7, h8]
  · simp only [fromValue, jSize]
    cases av with
    | obj lv =>
      have hv := hav lv rfl
      simp [fromValueF, ha1, ha2, ha3, ha4, ha5, ha6, hv]
    | null => simp [fromValueF, ha1, ha2, ha3, ha4, ha5, ha6]
    | b v => simp [fromValueF, ha1, ha2, ha3, ha4, ha5, ha6]
    | num n => simp [fromValueF, ha1, ha2, ha3, ha4, ha5, ha6]
    | str s => simp [fromValueF, ha1, ha2, ha3, ha4, ha5, ha6]
    | arr ys => simp [fromValueF, ha1, ha2, ha3, ha4, ha5, ha6]

theorem c9_unknown_key_null_amended_witness :
    fromValue (J.obj [("unknownValue", J.num 1)]) = some J.null ∧
    fromValue (J.obj [("arrayValue", J.obj [("nope", J.num 2)])]) = some (J.arr []) :=
  c9_unknown_key_null_amended [("unknownValue", J.num 1)]
    [("arrayValue", J.obj [("nope", J.num 2)])] (J.obj [("nope", J.num 2)])
    rfl rfl rfl rfl rfl rfl rfl rfl rfl rfl rfl rfl rfl rfl
    (fun lv hv => by injection hv with hlv; subst hlv; rfl)

/-- C10: for a non-connect request with a non-empty suffix the composed URL
is `url_root ++ "/" ++ suffix` unless the suffix starts with ':', in which
case it is `url_root ++ suffix` with no separator; a connect-flagged
request uses the suffix verbatim. -/
theorem c10_url_composition (url_root url_suffix : String) (flags : Nat) (hne : url_suffix ≠ "") :
    (flags &&& RPC_FLAG_CONNECT = 0 → url_suffix.data.head? ≠ some ':' →
      allocRequestUrl url_root url_suffix flags = url_root ++ "/" ++ url_suffix) ∧
    (flags &&& RPC_FLAG_CONNECT = 0 → url_suffix.data.head? = some ':' →
      allocRequestUrl url_root url_suffix flags = url_root ++ url_suffix) ∧
    (flags &&& RPC_FLAG_CONNECT ≠ 0 →
      allocRequestUrl url_root url_suffix flags = url_suffix) := by
  obtain ⟨cs⟩ := url_suffix
  cases cs with
  | nil => exact absurd rfl hne
  | cons c cs' =>
    refine ⟨?_, ?_, ?_⟩
    · intro hc hcol
      have hcne : c ≠ ':' := by simpa using hcol
      simp [allocRequestUrl, hc, hcne, String.append_assoc]
    · intro hc hcol
      have hceq : c = ':' := by simpa using hcol
      simp [allocRequestUrl, hc, hceq]
    · intro hc
      simp [allocRequestUrl, hc]

theorem c10_url_composition_witness :
    allocRequestUrl "https://firestore.googleapis.com/v1/projects/p/databases/(default)/documents"
        ":commit" 0
      = "https://firestore.googleapis.com/v1/projects/p/databases/(default)/documents"
          ++ ":commit" :=
  (c10_url_composition _ _ 0 (by decide)).2.1 (by decide) (by decide)
